import Mathlib

/-!
# Equifax credit client: the `Get` exchange pipeline

A shallow embedding of `equifaxCredit.Get` and `equifaxCredit.requestValidate`
(`equifax_credit.go`).  The libraries `Get` calls (encoding/xml, x/text charmap,
go-libxml2, cryptopro, net/http, acharset) are not part of the repository: each call
into them is a field of `World`, and `Get` records every call it makes, with what the
call returned, in a trace.  A Go panic inside a library is outside the model: the
model describes the runs on which every call returns.
-/

namespace Equifax

/-- A byte string (`[]byte`), one natural number below 256 per byte. -/
abbrev Bytes := List Nat

/-- Go `error` values, compared by identity as `==` on errors does.  The three
sentinels are the package variables the code names; `New msg` is any other error,
carrying its message (`errors.New(msg)`). -/
inductive GoError where
  | ErrInvalidRequest
  | ErrInvalidCertificate
  | ErrVerifyingSignature
  | New (msg : String)
  deriving DecidableEq, Repr

/-- The source constant `EquifaxCreditVersion`. -/
def EquifaxCreditVersion : String := "3.4"

/-- The declaration `Get` writes at the head of the request buffer, newline included. -/
def xmlDecl : String := "<?xml version=\"1.0\" encoding=\"windows-1251\"?>" ++ "\n"

/-- The separator `requestValidate` appends after each violation message (the source
writes the two characters slash and n). -/
def validationSep : String := "/n"

/-- Go `xml.Name`. -/
structure XMLName where
  Space : String
  Local : String
  deriving DecidableEq, Repr

/-- A `cryptopro.Cert` handle. -/
structure Cert where
  handle : Nat
  deriving DecidableEq, Repr

/-- A `*cryptopro.Msg` handle. -/
structure Msg where
  handle : Nat
  deriving DecidableEq, Repr

/-- A parsed libxml2 document handle. -/
structure Document where
  handle : Nat
  deriving DecidableEq, Repr

/-- A parsed `xsd.Schema` handle. -/
structure Schema where
  handle : Nat
  deriving DecidableEq, Repr

/-- The source struct `bkiRequest`; `Request` is a pointer and may be nil.  The business
record `CreditRequest` is a type parameter: `Get` only stores the pointer and hands it
to the serializer. -/
structure bkiRequest (CreditRequest : Type) where
  Version : String
  PartnerID : String
  Request : Option CreditRequest

/-- The source struct `TitlePart`. -/
structure TitlePart where
  XMLName : XMLName
  Data : Bytes
  deriving DecidableEq, Repr

/-- The source struct `BasePart`. -/
structure BasePart where
  XMLName : XMLName
  Data : Bytes
  deriving DecidableEq, Repr

/-- The source struct `AddPart`. -/
structure AddPart where
  XMLName : XMLName
  Data : Bytes
  deriving DecidableEq, Repr

/-- The source struct `InformationParts`. -/
structure InformationParts where
  XMLName : XMLName
  Data : Bytes
  deriving DecidableEq, Repr

/-- The source struct `Response`.  The type `ResponseCode` is declared outside the
given sources and is a type parameter. -/
structure Response (ResponseCode : Type) where
  XMLName : XMLName
  Num : String
  Code : ResponseCode
  Text : String
  TitlePart : TitlePart
  BasePart : BasePart
  AddPart : AddPart
  InformationParts : InformationParts

/-- The source struct `CreditResponse`; `Response` is a pointer and may be nil. -/
structure CreditResponse (ResponseCode : Type) where
  XMLName : XMLName
  Version : String
  PartnerID : String
  DateTime : String
  Response : Option (Response ResponseCode)

/-- The fields of `http.Response` that `Get` reads. -/
structure HttpResponse where
  StatusCode : Int
  Body : Bytes
  deriving DecidableEq, Repr

/-- Go `http.StatusOK`. -/
def StatusOK : Int := 200

/-- The source struct `equifaxCredit`: the client configuration. -/
structure equifaxCredit where
  url : String
  partnerID : String
  crt : Cert
  schema : String
  saveReq : Bool

/-- The source constructor `NewEquifaxCredit`. -/
def NewEquifaxCredit (url : String) (partnerID : String) (crt : Cert) (schema : String)
    (saveReq : Bool) : equifaxCredit :=
  { url := url, partnerID := partnerID, crt := crt, schema := schema, saveReq := saveReq }

/-- The error of the charmap encoder for a rune outside the repertoire. -/
def UnsupportedCharacter : GoError := GoError.New "encoding: rune not supported by encoding."

/-- Modelled from the spec: `charmap.Windows1251.NewEncoder().Bytes` of golang.org/x/text,
whose code is not under src/.  The spec's `encodeToWire`: the text is encoded character
by character through the code table, and the first character with no representation
makes the whole call fail with `UnsupportedCharacter`; no replacement byte is written.
The buffer holds the UTF-8 text the serializer wrote; the model keeps it as its
characters. -/
def charmapEncode (table : Char → Option Nat) : List Char → Except GoError Bytes
  | [] => Except.ok []
  | c :: cs =>
    match table c with
    | none => Except.error UnsupportedCharacter
    | some b =>
      match charmapEncode table cs with
      | Except.error err => Except.error err
      | Except.ok bs => Except.ok (b :: bs)

/-- The libraries and the outside world `Get` talks to.  Every field is what one call
returns for the arguments `Get` passes. -/
structure World (CreditRequest ResponseCode : Type) where
  /-- The call `xml.NewEncoder(reqBuf).Encode(req)`: the text appended to `reqBuf`, and the error. -/
  xmlEncode : bkiRequest CreditRequest → String × Option GoError
  /-- The code table of `charmap.Windows1251`: the byte of a character, `none` when
  the character has no representation. -/
  windows1251 : Char → Option Nat
  /-- The call `parser.New().ParseReader`. -/
  parseReader : Bytes → Except GoError Document
  /-- The call `ioutil.ReadFile`. -/
  readFile : String → Except GoError Bytes
  /-- The call `xsd.Parse`. -/
  xsdParse : Bytes → Except GoError Schema
  /-- The call `sc.Validate(doc)`: `none` when the document conforms, otherwise the
  messages of `err.(xsd.SchemaValidationError).Errors()`, in order. -/
  xsdValidate : Schema → Document → Option (List String)
  /-- The call `cryptopro.OpenToEncode(dest, EncodeOptions with Signers)`. -/
  openToEncode : List Cert → Option Msg × Option GoError
  /-- The error of `reqBuf.WriteTo(msg)`. -/
  msgWrite : Option Msg → Bytes → Option GoError
  /-- The contents of `dest` after the write and `msg.Close()`. -/
  msgClose : Option Msg → Bytes → Bytes
  /-- The value of `time.Now().Format("20060102150405")`. -/
  now : String
  /-- The call `http.Post(url, contentType, body)`: a response, or an error. -/
  httpPost : String → String → Bytes → Except GoError HttpResponse
  /-- The call `cryptopro.OpenToDecode(resp.Body)`: both results. -/
  openToDecode : Bytes → Option Msg × Option GoError
  /-- The call `io.Copy(cBuf, respMsg)`: the bytes copied into `cBuf`, and the error. -/
  ioCopy : Option Msg → Bytes × Option GoError
  /-- The call `respMsg.Verify(e.crt)`. -/
  verify : Option Msg → Cert → Option GoError
  /-- The call `dec.Decode(&result)` with `acharset.CharsetReader` installed: the value of
  `result` after the call, and the error. -/
  xmlDecode : Bytes → Option (CreditResponse ResponseCode) × Option GoError

/-- One call `Get` makes, with its arguments and what it returned. -/
inductive Event (CreditRequest ResponseCode : Type) where
  | xmlEncode (req : bkiRequest CreditRequest) (out : String × Option GoError)
  | charmapEncode (doc : String) (out : Except GoError Bytes)
  | requestValidate (reqBytes : Bytes) (out : Option GoError)
  | openToEncode (signers : List Cert) (out : Option Msg × Option GoError)
  | msgWrite (msg : Option Msg) (data : Bytes) (out : Option GoError)
  | msgClose (msg : Option Msg) (out : Bytes)
  | writeFile (name : String) (data : Bytes)
  | httpPost (url : String) (contentType : String) (body : Bytes)
      (out : Except GoError HttpResponse)
  | openToDecode (body : Bytes) (out : Option Msg × Option GoError)
  | ioCopy (msg : Option Msg) (out : Bytes × Option GoError)
  | verify (msg : Option Msg) (crt : Cert) (out : Option GoError)
  | xmlDecode (payload : Bytes) (out : Option (CreditResponse ResponseCode) × Option GoError)

/-- What `Get` returns, `(*CreditResponse, error)`, and the calls it made, in order. -/
structure Outcome (CreditRequest ResponseCode : Type) where
  resp : Option (CreditResponse ResponseCode)
  err : Option GoError
  trace : List (Event CreditRequest ResponseCode)

variable {CreditRequest ResponseCode : Type}

/-- The source method `equifaxCredit.requestValidate`. -/
def requestValidate (w : World CreditRequest ResponseCode) (e : equifaxCredit)
    (reqBytes : Bytes) : Option GoError :=
  match w.parseReader reqBytes with
  | Except.error err => some err
  | Except.ok doc =>
    match w.readFile e.schema with
    | Except.error err => some err
    | Except.ok xsdSchema =>
      match w.xsdParse xsdSchema with
      | Except.error err => some err
      | Except.ok sc =>
        match w.xsdValidate sc doc with
        | some errs =>
          some (GoError.New
            (errs.foldl (fun errorMsg v => errorMsg ++ (v ++ validationSep)) ""))
        | none => none

/-- The part of the source method `equifaxCredit.Get` after the status check: unwrap
the reply, copy the payload, verify, decode. -/
def Get.decodeReply (w : World CreditRequest ResponseCode) (e : equifaxCredit)
    (resp : HttpResponse) (t : List (Event CreditRequest ResponseCode)) :
    Outcome CreditRequest ResponseCode :=
  -- respMsg, err := cryptopro.OpenToDecode(resp.Body): err is overwritten below, unread
  let opened := w.openToDecode resp.Body
  let respMsg := opened.1
  let t := t ++ [Event.openToDecode resp.Body opened]
  let copied := w.ioCopy respMsg
  let cBuf := copied.1
  let t := t ++ [Event.ioCopy respMsg copied]
  match copied.2 with
  | some err => ⟨none, some err, t⟩
  | none =>
    let verr := w.verify respMsg e.crt
    let t := t ++ [Event.verify respMsg e.crt verr]
    if verr ≠ none ∧ verr ≠ some GoError.ErrVerifyingSignature then
      ⟨none, some GoError.ErrInvalidCertificate, t⟩
    else
      let decoded := w.xmlDecode cBuf
      let t := t ++ [Event.xmlDecode cBuf decoded]
      match decoded.2 with
      | some err => ⟨none, some err, t⟩
      | none => ⟨decoded.1, none, t⟩

/-- The part of the source method `equifaxCredit.Get` from signing on: sign the
transcoded bytes, keep a copy when asked, post, check the status. -/
def Get.signAndSend (w : World CreditRequest ResponseCode) (e : equifaxCredit)
    (reqEncBytes : Bytes) (t : List (Event CreditRequest ResponseCode)) :
    Outcome CreditRequest ResponseCode :=
  let enc := w.openToEncode [e.crt]
  let msg := enc.1
  let t := t ++ [Event.openToEncode [e.crt] enc]
  match enc.2 with
  | some err => ⟨none, some err, t⟩
  | none =>
    let werr := w.msgWrite msg reqEncBytes
    let t := t ++ [Event.msgWrite msg reqEncBytes werr]
    match werr with
    | some err => ⟨none, some err, t⟩
    | none =>
      let reqBytes := w.msgClose msg reqEncBytes
      let t := t ++ [Event.msgClose msg reqBytes]
      let t := if e.saveReq then t ++ [Event.writeFile (w.now ++ ".sig") reqBytes] else t
      let posted := w.httpPost e.url "application/octet-stream" reqBytes
      let t := t ++ [Event.httpPost e.url "application/octet-stream" reqBytes posted]
      match posted with
      | Except.error err => ⟨none, some err, t⟩
      | Except.ok resp =>
        if resp.StatusCode ≠ StatusOK then
          ⟨none, some GoError.ErrInvalidRequest, t⟩
        else
          Get.decodeReply w e resp t

/-- The source method `equifaxCredit.Get`; `r` is the pointer argument (nil is `none`).
The body is split in three at the source's blank lines: serialize, transcode and
validate here, then `Get.signAndSend`, then `Get.decodeReply`. -/
def Get (w : World CreditRequest ResponseCode) (e : equifaxCredit)
    (r : Option CreditRequest) : Outcome CreditRequest ResponseCode :=
  let req : bkiRequest CreditRequest :=
    { Version := EquifaxCreditVersion, PartnerID := e.partnerID, Request := r }
  let encoded := w.xmlEncode req
  let reqBuf := xmlDecl ++ encoded.1
  let t := [Event.xmlEncode req encoded]
  match encoded.2 with
  | some err => ⟨none, some err, t⟩
  | none =>
    let transcoded := charmapEncode w.windows1251 reqBuf.data
    let t := t ++ [Event.charmapEncode reqBuf transcoded]
    match transcoded with
    | Except.error err => ⟨none, some err, t⟩
    | Except.ok reqEncBytes =>
      if e.schema ≠ "" then
        let verr := requestValidate w e reqEncBytes
        let t := t ++ [Event.requestValidate reqEncBytes verr]
        match verr with
        | some err => ⟨none, some err, t⟩
        | none => Get.signAndSend w e reqEncBytes t
      else
        Get.signAndSend w e reqEncBytes t

/-- The stages that open, copy, verify or decode the reply. -/
def Event.isDecodeStage : Event CreditRequest ResponseCode → Bool
  | Event.openToDecode _ _ => true
  | Event.ioCopy _ _ => true
  | Event.verify _ _ _ => true
  | Event.xmlDecode _ _ => true
  | _ => false

/-- The stages that sign or transmit the request. -/
def Event.isSignOrSend : Event CreditRequest ResponseCode → Bool
  | Event.openToEncode _ _ => true
  | Event.msgWrite _ _ _ => true
  | Event.msgClose _ _ => true
  | Event.writeFile _ _ => true
  | Event.httpPost _ _ _ _ => true
  | _ => false

/-! ## Sample configurations and worlds -/

/-- A sample code table: ASCII unchanged, and the Russian letters U+0410 to U+044F at
the bytes 0xC0 to 0xFF. -/
def sampleTable (c : Char) : Option Nat :=
  if c.toNat < 128 then some c.toNat
  else if 1040 ≤ c.toNat ∧ c.toNat ≤ 1103 then some (c.toNat - 1040 + 192)
  else none

/-- A client without a schema that keeps no copy of its requests. -/
def sampleClient : equifaxCredit :=
  NewEquifaxCredit "https://gateway.example/bki" "P1" ⟨7⟩ "" false

/-- A client with a schema configured. -/
def schemaClient : equifaxCredit :=
  NewEquifaxCredit "https://gateway.example/bki" "P1" ⟨7⟩ "credit.xsd" true

/-- A decoded reply whose response code is a rejection. -/
def sampleResponse : CreditResponse String :=
  { XMLName := ⟨"", "bki_response"⟩, Version := "3.4", PartnerID := "P1",
    DateTime := "01.02.2024 10:00:00",
    Response := some
      { XMLName := ⟨"", "response"⟩, Num := "1", Code := "rejected", Text := "no data",
        TitlePart := ⟨⟨"", "title_part"⟩, [60, 97, 47, 62]⟩,
        BasePart := ⟨⟨"", "base_part"⟩, []⟩,
        AddPart := ⟨⟨"", "add_part"⟩, []⟩,
        InformationParts := ⟨⟨"", "information_parts"⟩, []⟩ } }

/-- A world in which every stage succeeds and the reply verifies. -/
def goodWorld : World Unit String :=
  { xmlEncode := fun _ => ("<bki_request version=\"3.4\" partnerid=\"P1\"></bki_request>", none)
    windows1251 := sampleTable
    parseReader := fun _ => Except.ok ⟨1⟩
    readFile := fun _ => Except.ok [60, 120, 62]
    xsdParse := fun _ => Except.ok ⟨1⟩
    xsdValidate := fun _ _ => none
    openToEncode := fun _ => (some ⟨1⟩, none)
    msgWrite := fun _ _ => none
    msgClose := fun _ data => 48 :: data
    now := "20240201100000"
    httpPost := fun _ _ _ => Except.ok ⟨200, [48, 1, 2]⟩
    openToDecode := fun _ => (some ⟨2⟩, none)
    ioCopy := fun _ => ([60, 114, 47, 62], none)
    verify := fun _ _ => none
    xmlDecode := fun _ => (some sampleResponse, none) }

/-- The gateway answers 503. -/
def rejectWorld : World Unit String :=
  { goodWorld with httpPost := fun _ _ _ => Except.ok ⟨503, [111, 111, 112, 115]⟩ }

/-- The reply fails verification with the error the code compares against. -/
def toleratedWorld : World Unit String :=
  { goodWorld with verify := fun _ _ => some GoError.ErrVerifyingSignature }

/-- The reply fails verification with another error. -/
def mismatchWorld : World Unit String :=
  { goodWorld with verify := fun _ _ => some (GoError.New "signer certificate mismatch") }

/-- The reply body is not an envelope: `OpenToDecode` fails and returns no message, and
reading from that message fails as well. -/
def badEnvelopeWorld : World Unit String :=
  { goodWorld with
    httpPost := fun _ _ _ => Except.ok ⟨200, [111, 111, 112, 115]⟩
    openToDecode := fun _ => (none, some (GoError.New "cryptopro: not a message"))
    ioCopy := fun m => match m with
      | none => ([], some (GoError.New "cryptopro: read"))
      | some _ => ([60, 114, 47, 62], none) }

/-- The serialized request holds a character outside the sample table (U+4E2D). -/
def unsupportedWorld : World Unit String :=
  { goodWorld with
    xmlEncode := fun _ => ("<bki_request><city>中</city></bki_request>", none) }

/-- The schema check finds two violations. -/
def violationsWorld : World Unit String :=
  { goodWorld with
    xsdValidate := fun _ _ => some ["element city: missing", "element index: too long"] }

/-- As `goodWorld`, with a decoder that tells its inputs apart: it decodes the payload
copied out of the reply message and fails on any other bytes, the raw reply body
included. -/
def strictWorld : World Unit String :=
  { goodWorld with
    xmlDecode := fun p =>
      if p = [60, 114, 47, 62] then (some sampleResponse, none)
      else (none, some (GoError.New "EOF")) }

/-- As `strictWorld`, the reply failing verification with the error the code compares
against. -/
def strictToleratedWorld : World Unit String :=
  { strictWorld with verify := fun _ _ => some GoError.ErrVerifyingSignature }

/-- The world `w` with the result of `respMsg.Verify` replaced by `f`, every other call
answering as in `w`. -/
def World.withVerify (w : World CreditRequest ResponseCode)
    (f : Option Msg → Cert → Option GoError) : World CreditRequest ResponseCode :=
  { w with verify := f }

/-! ## Shape of a run -/

/-- The trace of `Get.decodeReply` is the trace so far followed by decode stages only. -/
theorem decodeReply_trace (w : World CreditRequest ResponseCode) (e : equifaxCredit)
    (resp : HttpResponse) (t : List (Event CreditRequest ResponseCode)) :
    ∃ s, (Get.decodeReply w e resp t).trace = t ++ s ∧ ∀ ev ∈ s, ev.isDecodeStage = true := by
  unfold Get.decodeReply
  simp only []
  split
  · exact ⟨_, by simp only [List.append_assoc]; rfl, by simp [Event.isDecodeStage]⟩
  · split
    · exact ⟨_, by simp only [List.append_assoc]; rfl, by simp [Event.isDecodeStage]⟩
    · split
      · exact ⟨_, by simp only [List.append_assoc]; rfl, by simp [Event.isDecodeStage]⟩
      · exact ⟨_, by simp only [List.append_assoc]; rfl, by simp [Event.isDecodeStage]⟩

/-- How `Get.signAndSend` ends: it hands a status 200 reply to `Get.decodeReply`, or it
returns a nil response with an error before any decode stage. -/
theorem signAndSend_cases (w : World CreditRequest ResponseCode) (e : equifaxCredit)
    (b : Bytes) (t : List (Event CreditRequest ResponseCode))
    (ht : ∀ ev ∈ t, ev.isDecodeStage = false)
    (hp : ∀ u c x o, Event.httpPost u c x o ∉ t) :
    (∃ resp t1, Get.signAndSend w e b t = Get.decodeReply w e resp t1 ∧
        resp.StatusCode = 200 ∧ (∀ ev ∈ t1, ev.isDecodeStage = false) ∧
        (∀ u c x o, Event.httpPost u c x o ∈ t1 → o = Except.ok resp)) ∨
    ((Get.signAndSend w e b t).resp = none ∧ (Get.signAndSend w e b t).err ≠ none ∧
        (∀ ev ∈ (Get.signAndSend w e b t).trace, ev.isDecodeStage = false) ∧
        (∀ u c x resp, Event.httpPost u c x (Except.ok resp) ∈ (Get.signAndSend w e b t).trace →
          resp.StatusCode ≠ 200 ∧
            (Get.signAndSend w e b t).err = some GoError.ErrInvalidRequest)) := by
  unfold Get.signAndSend
  simp only []
  split
  · right
    refine ⟨rfl, by simp, ?_, ?_⟩
    · intro ev hev
      simp only [List.mem_append, List.mem_singleton] at hev
      rcases hev with h | h
      · exact ht ev h
      · subst h; rfl
    · intro u c x resp h
      simp only [List.mem_append, List.mem_singleton] at h
      rcases h with h | h
      · exact absurd h (hp u c x _)
      · cases h
  · split
    · right
      refine ⟨rfl, by simp, ?_, ?_⟩
      · intro ev hev
        simp only [List.mem_append, List.mem_singleton] at hev
        rcases hev with (h | h) | h
        · exact ht ev h
        · subst h; rfl
        · subst h; rfl
      · intro u c x resp h
        simp only [List.mem_append, List.mem_singleton] at h
        rcases h with (h | h) | h
        · exact absurd h (hp u c x _)
        · cases h
        · cases h
    · have hT : ∀ ev ∈ (if e.saveReq = true then
            t ++ [Event.openToEncode [e.crt] (w.openToEncode [e.crt])] ++
                [Event.msgWrite (w.openToEncode [e.crt]).1 b
                  (w.msgWrite (w.openToEncode [e.crt]).1 b)] ++
                [Event.msgClose (w.openToEncode [e.crt]).1
                  (w.msgClose (w.openToEncode [e.crt]).1 b)] ++
              [Event.writeFile (w.now ++ ".sig") (w.msgClose (w.openToEncode [e.crt]).1 b)]
          else
            t ++ [Event.openToEncode [e.crt] (w.openToEncode [e.crt])] ++
                [Event.msgWrite (w.openToEncode [e.crt]).1 b
                  (w.msgWrite (w.openToEncode [e.crt]).1 b)] ++
                [Event.msgClose (w.openToEncode [e.crt]).1
                  (w.msgClose (w.openToEncode [e.crt]).1 b)]),
          ev.isDecodeStage = false ∧ ∀ u c x o, ev ≠ Event.httpPost u c x o := by
        intro ev hev
        split at hev
        · simp only [List.mem_append, List.mem_singleton] at hev
          rcases hev with (((h | h) | h) | h) | h
          · exact ⟨ht ev h, fun u c x o hh => hp u c x o (hh ▸ h)⟩
          all_goals subst h; exact ⟨rfl, fun _ _ _ _ hh => by cases hh⟩
        · simp only [List.mem_append, List.mem_singleton] at hev
          rcases hev with ((h | h) | h) | h
          · exact ⟨ht ev h, fun u c x o hh => hp u c x o (hh ▸ h)⟩
          all_goals subst h; exact ⟨rfl, fun _ _ _ _ hh => by cases hh⟩
      split
      · right
        refine ⟨rfl, by simp, ?_, ?_⟩
        · intro ev hev
          simp only [List.mem_append, List.mem_singleton] at hev
          rcases hev with h | h
          · exact (hT ev h).1
          · subst h; rfl
        · intro u c x resp h
          simp only [List.mem_append, List.mem_singleton] at h
          rcases h with h | h
          · exact absurd rfl ((hT _ h).2 u c x _)
          · rename_i heq
            rw [heq] at h
            cases h
      · rename_i resp heq
        split
        · rename_i hst
          right
          refine ⟨rfl, by simp, ?_, ?_⟩
          · intro ev hev
            simp only [List.mem_append, List.mem_singleton] at hev
            rcases hev with h | h
            · exact (hT ev h).1
            · subst h; rfl
          · intro u c x resp1 h
            simp only [List.mem_append, List.mem_singleton] at h
            rcases h with h | h
            · exact absurd rfl ((hT _ h).2 u c x _)
            · rw [heq] at h
              cases h
              exact ⟨hst, rfl⟩
        · rename_i hst
          left
          refine ⟨resp, _, rfl, ?_, ?_, ?_⟩
          · simpa [StatusOK] using hst
          · intro ev hev
            simp only [List.mem_append, List.mem_singleton] at hev
            rcases hev with h | h
            · exact (hT ev h).1
            · subst h; rfl
          · intro u c x o h
            simp only [List.mem_append, List.mem_singleton] at h
            rcases h with h | h
            · exact absurd rfl ((hT _ h).2 u c x _)
            · rw [heq] at h
              cases h
              rfl

/-- How `Get` ends: it hands a status 200 reply to `Get.decodeReply`, or it returns a
nil response with an error before any decode stage. -/
theorem Get_cases (w : World CreditRequest ResponseCode) (e : equifaxCredit)
    (r : Option CreditRequest) :
    (∃ resp t1, Get w e r = Get.decodeReply w e resp t1 ∧
        resp.StatusCode = 200 ∧ (∀ ev ∈ t1, ev.isDecodeStage = false) ∧
        (∀ u c x o, Event.httpPost u c x o ∈ t1 → o = Except.ok resp)) ∨
    ((Get w e r).resp = none ∧ (Get w e r).err ≠ none ∧
        (∀ ev ∈ (Get w e r).trace, ev.isDecodeStage = false) ∧
        (∀ u c x resp, Event.httpPost u c x (Except.ok resp) ∈ (Get w e r).trace →
          resp.StatusCode ≠ 200 ∧ (Get w e r).err = some GoError.ErrInvalidRequest)) := by
  unfold Get
  simp only []
  split
  · right
    refine ⟨rfl, by simp, ?_, ?_⟩
    · intro ev hev
      simp only [List.mem_singleton] at hev
      subst hev; rfl
    · intro u c x resp h
      simp only [List.mem_singleton] at h
      cases h
  · split
    · right
      refine ⟨rfl, by simp, ?_, ?_⟩
      · intro ev hev
        simp only [List.mem_append, List.mem_singleton] at hev
        rcases hev with h | h <;> subst h <;> rfl
      · intro u c x resp h
        simp only [List.mem_append, List.mem_singleton] at h
        rcases h with h | h <;> cases h
    · split
      · split
        · right
          refine ⟨rfl, by simp, ?_, ?_⟩
          · intro ev hev
            simp only [List.mem_append, List.mem_singleton] at hev
            rcases hev with (h | h) | h <;> subst h <;> rfl
          · intro u c x resp h
            simp only [List.mem_append, List.mem_singleton] at h
            rcases h with (h | h) | h <;> cases h
        · apply signAndSend_cases
          · intro ev hev
            simp only [List.mem_append, List.mem_singleton] at hev
            rcases hev with (h | h) | h <;> subst h <;> rfl
          · intro u c x o h
            simp only [List.mem_append, List.mem_singleton] at h
            rcases h with (h | h) | h <;> cases h
      · apply signAndSend_cases
        · intro ev hev
          simp only [List.mem_append, List.mem_singleton] at hev
          rcases hev with h | h <;> subst h <;> rfl
        · intro u c x o h
          simp only [List.mem_append, List.mem_singleton] at h
          rcases h with h | h <;> cases h

/-- C1: whenever the gateway answers the POST with a status other than 200, `Get`
returns a nil response with `ErrInvalidRequest`, and it has made no call that opens,
copies, verifies or XML-decodes the reply. -/
theorem Get_status_not_ok (w : World CreditRequest ResponseCode) (e : equifaxCredit)
    (r : Option CreditRequest) (url contentType : String) (body : Bytes)
    (resp : HttpResponse)
    (hpost : Event.httpPost url contentType body (Except.ok resp) ∈ (Get w e r).trace)
    (hstatus : resp.StatusCode ≠ 200) :
    (Get w e r).resp = none ∧ (Get w e r).err = some GoError.ErrInvalidRequest ∧
      ∀ ev ∈ (Get w e r).trace, ev.isDecodeStage = false := by
  rcases Get_cases w e r with ⟨resp1, t1, hG, h200, ht1, hp1⟩ | ⟨hr, _, htr, hp⟩
  · exfalso
    obtain ⟨s, hs, hdec⟩ := decodeReply_trace w e resp1 t1
    rw [hG, hs, List.mem_append] at hpost
    rcases hpost with h | h
    · have := hp1 _ _ _ _ h
      cases this
      exact hstatus h200
    · have := hdec _ h
      simp [Event.isDecodeStage] at this
  · exact ⟨hr, (hp _ _ _ _ hpost).2, htr⟩

/-- A decode stage in the trace means `Get` reached `Get.decodeReply` with a status 200
reply, after a trace without decode stages. -/
theorem Get_reaches_decode (w : World CreditRequest ResponseCode) (e : equifaxCredit)
    (r : Option CreditRequest) (ev : Event CreditRequest ResponseCode)
    (hev : ev ∈ (Get w e r).trace) (hd : ev.isDecodeStage = true) :
    ∃ resp t1, Get w e r = Get.decodeReply w e resp t1 ∧ resp.StatusCode = 200 ∧
      (∀ x ∈ t1, x.isDecodeStage = false) ∧
      (∀ u c x o, Event.httpPost u c x o ∈ t1 → o = Except.ok resp) := by
  rcases Get_cases w e r with h | ⟨_, _, htr, _⟩
  · exact h
  · rw [htr ev hev] at hd
    cases hd

/-- What `Get.decodeReply` does once the payload is copied out, by the result of
`Verify`: a fatal error ends the run, the two tolerated results lead to the decoder. -/
theorem decodeReply_run (w : World CreditRequest ResponseCode) (e : equifaxCredit)
    (resp : HttpResponse) (t : List (Event CreditRequest ResponseCode)) :
    (Get.decodeReply w e resp t).trace =
        t ++ [Event.openToDecode resp.Body (w.openToDecode resp.Body),
          Event.ioCopy (w.openToDecode resp.Body).1 (w.ioCopy (w.openToDecode resp.Body).1)] ++
        (match (w.ioCopy (w.openToDecode resp.Body).1).2 with
          | some _ => []
          | none =>
            Event.verify (w.openToDecode resp.Body).1 e.crt
                (w.verify (w.openToDecode resp.Body).1 e.crt) ::
              (if w.verify (w.openToDecode resp.Body).1 e.crt ≠ none ∧
                  w.verify (w.openToDecode resp.Body).1 e.crt ≠
                    some GoError.ErrVerifyingSignature then []
                else [Event.xmlDecode (w.ioCopy (w.openToDecode resp.Body).1).1
                  (w.xmlDecode (w.ioCopy (w.openToDecode resp.Body).1).1)])) ∧
      ((w.ioCopy (w.openToDecode resp.Body).1).2 = none →
        (w.verify (w.openToDecode resp.Body).1 e.crt ≠ none ∧
            w.verify (w.openToDecode resp.Body).1 e.crt ≠
              some GoError.ErrVerifyingSignature →
          (Get.decodeReply w e resp t).resp = none ∧
            (Get.decodeReply w e resp t).err = some GoError.ErrInvalidCertificate) ∧
        (¬ (w.verify (w.openToDecode resp.Body).1 e.crt ≠ none ∧
            w.verify (w.openToDecode resp.Body).1 e.crt ≠
              some GoError.ErrVerifyingSignature) →
          ((w.xmlDecode (w.ioCopy (w.openToDecode resp.Body).1).1).2 = none →
            (Get.decodeReply w e resp t).resp =
                (w.xmlDecode (w.ioCopy (w.openToDecode resp.Body).1).1).1 ∧
              (Get.decodeReply w e resp t).err = none) ∧
          (∀ err, (w.xmlDecode (w.ioCopy (w.openToDecode resp.Body).1).1).2 = some err →
            (Get.decodeReply w e resp t).resp = none ∧
              (Get.decodeReply w e resp t).err = some err))) := by
  unfold Get.decodeReply
  simp only []
  split
  · rename_i err hc
    simp [hc]
  · rename_i hc
    split
    · rename_i hv
      simp [hc, hv]
    · rename_i hv
      split
      · rename_i err hx
        simp [hc, hv, hx]
      · rename_i hx
        simp [hc, hv, hx]

/-- An element found at an index of a list belongs to the list. -/
theorem mem_of_index {α : Type} (l : List α) (n : Nat) (a : α) (h : l[n]? = some a) :
    a ∈ l :=
  List.getElem?_mem h

/-- A `Verify` call in the trace of `Get.decodeReply` is the one call it makes, made
after the payload was copied without error. -/
theorem decodeReply_verify_mem (w : World CreditRequest ResponseCode) (e : equifaxCredit)
    (resp : HttpResponse) (t : List (Event CreditRequest ResponseCode))
    (ht : ∀ x ∈ t, x.isDecodeStage = false) (m : Option Msg) (c : Cert)
    (v : Option GoError) (hv : Event.verify m c v ∈ (Get.decodeReply w e resp t).trace) :
    (w.ioCopy (w.openToDecode resp.Body).1).2 = none ∧ m = (w.openToDecode resp.Body).1 ∧
      c = e.crt ∧ v = w.verify (w.openToDecode resp.Body).1 e.crt := by
  rw [(decodeReply_run w e resp t).1] at hv
  simp only [List.mem_append, List.mem_cons, List.mem_singleton, List.not_mem_nil,
    or_false] at hv
  rcases hv with (h | h | h) | h
  · have := ht _ h
    simp [Event.isDecodeStage] at this
  · cases h
  · cases h
  · cases hc : (w.ioCopy (w.openToDecode resp.Body).1).2 with
    | some err => simp [hc] at h
    | none =>
      simp only [hc, List.mem_cons] at h
      rcases h with h | h
      · cases h
        exact ⟨rfl, rfl, rfl, rfl⟩
      · split at h
        · cases h
        · simp at h

/-- A decoder call in the trace of `Get.decodeReply` is the one call it makes, on the
copied payload, after `Verify` returned nil or the tolerated error. -/
theorem decodeReply_xmlDecode_mem (w : World CreditRequest ResponseCode) (e : equifaxCredit)
    (resp : HttpResponse) (t : List (Event CreditRequest ResponseCode))
    (ht : ∀ x ∈ t, x.isDecodeStage = false) (p : Bytes)
    (d : Option (CreditResponse ResponseCode) × Option GoError)
    (hd : Event.xmlDecode p d ∈ (Get.decodeReply w e resp t).trace) :
    (w.ioCopy (w.openToDecode resp.Body).1).2 = none ∧
      ¬ (w.verify (w.openToDecode resp.Body).1 e.crt ≠ none ∧
        w.verify (w.openToDecode resp.Body).1 e.crt ≠ some GoError.ErrVerifyingSignature) ∧
      p = (w.ioCopy (w.openToDecode resp.Body).1).1 ∧ d = w.xmlDecode p := by
  rw [(decodeReply_run w e resp t).1] at hd
  simp only [List.mem_append, List.mem_cons, List.mem_singleton, List.not_mem_nil,
    or_false] at hd
  rcases hd with (h | h | h) | h
  · have := ht _ h
    simp [Event.isDecodeStage] at this
  · cases h
  · cases h
  · cases hc : (w.ioCopy (w.openToDecode resp.Body).1).2 with
    | some err => simp [hc] at h
    | none =>
      simp only [hc, List.mem_cons] at h
      rcases h with h | h
      · cases h
      · split at h
        · cases h
        · rename_i hv
          simp only [List.mem_singleton] at h
          cases h
          exact ⟨rfl, hv, rfl, rfl⟩

/-- An `OpenToDecode` call in the trace of `Get.decodeReply` is the one call it makes. -/
theorem decodeReply_openToDecode_mem (w : World CreditRequest ResponseCode)
    (e : equifaxCredit) (resp : HttpResponse) (t : List (Event CreditRequest ResponseCode))
    (ht : ∀ x ∈ t, x.isDecodeStage = false) (b : Bytes) (o : Option Msg × Option GoError)
    (ho : Event.openToDecode b o ∈ (Get.decodeReply w e resp t).trace) :
    b = resp.Body ∧ o = w.openToDecode resp.Body := by
  rw [(decodeReply_run w e resp t).1] at ho
  simp only [List.mem_append, List.mem_cons, List.mem_singleton, List.not_mem_nil,
    or_false] at ho
  rcases ho with (h | h | h) | h
  · have := ht _ h
    simp [Event.isDecodeStage] at this
  · cases h
    exact ⟨rfl, rfl⟩
  · cases h
  · cases hc : (w.ioCopy (w.openToDecode resp.Body).1).2 with
    | some err => simp [hc] at h
    | none =>
      simp only [hc, List.mem_cons] at h
      rcases h with h | h
      · cases h
      · split at h
        · cases h
        · simp at h

/-- A copy call in the trace of `Get.decodeReply` is the one call it makes, on the
message `OpenToDecode` returned. -/
theorem decodeReply_ioCopy_mem (w : World CreditRequest ResponseCode)
    (e : equifaxCredit) (resp : HttpResponse) (t : List (Event CreditRequest ResponseCode))
    (ht : ∀ x ∈ t, x.isDecodeStage = false) (m : Option Msg) (o : Bytes × Option GoError)
    (ho : Event.ioCopy m o ∈ (Get.decodeReply w e resp t).trace) :
    m = (w.openToDecode resp.Body).1 ∧ o = w.ioCopy (w.openToDecode resp.Body).1 := by
  rw [(decodeReply_run w e resp t).1] at ho
  simp only [List.mem_append, List.mem_cons, List.mem_singleton, List.not_mem_nil,
    or_false] at ho
  rcases ho with (h | h | h) | h
  · have := ht _ h
    simp [Event.isDecodeStage] at this
  · cases h
  · cases h
    exact ⟨rfl, rfl⟩
  · cases hc : (w.ioCopy (w.openToDecode resp.Body).1).2 with
    | some err => simp [hc] at h
    | none =>
      simp only [hc, List.mem_cons] at h
      rcases h with h | h
      · cases h
      · split at h
        · cases h
        · simp at h

/-! ## The reply: verification and decoding -/

/-- C1, at a gateway that answers 503: there is such a reply, and the run ends as stated. -/
theorem Get_status_not_ok_witness :
    Event.httpPost "https://gateway.example/bki" "application/octet-stream"
        (48 :: (xmlDecl ++
          "<bki_request version=\"3.4\" partnerid=\"P1\"></bki_request>").data.map Char.toNat)
        (Except.ok ⟨503, [111, 111, 112, 115]⟩) ∈ (Get rejectWorld sampleClient none).trace ∧
      ((Get rejectWorld sampleClient none).resp = none ∧
        (Get rejectWorld sampleClient none).err = some GoError.ErrInvalidRequest ∧
        ∀ ev ∈ (Get rejectWorld sampleClient none).trace, ev.isDecodeStage = false) :=
  ⟨mem_of_index _ 5 _ rfl,
    Get_status_not_ok rejectWorld sampleClient none _ _ _ ⟨503, [111, 111, 112, 115]⟩
      (mem_of_index _ 5 _ rfl) (by decide)⟩

/-- C2, as stated, fails: the reply has status 200, `Verify` returns the error
`ErrVerifyingSignature`, and `Get` returns the decoded response with a nil error. -/
theorem Get_verify_error_counterexample :
    Event.verify (some ⟨2⟩) ⟨7⟩ (some GoError.ErrVerifyingSignature) ∈
        (Get toleratedWorld sampleClient none).trace ∧
      (Get toleratedWorld sampleClient none).resp = some sampleResponse ∧
      (Get toleratedWorld sampleClient none).err = none ∧
      (Get toleratedWorld sampleClient none).err ≠ some GoError.ErrInvalidCertificate :=
  ⟨mem_of_index _ 8 _ rfl, rfl, rfl, by decide⟩

/-- C2, amended: when `Verify` on the reply returns an error other than
`cryptopro.ErrVerifyingSignature`, `Get` returns a nil response with
`ErrInvalidCertificate`; when it returns `ErrVerifyingSignature`, `Get` goes on to the
decoder and returns what decoding gives: the decoded response with a nil error, or a nil
response with the decoder's error. -/
theorem Get_verify_error (w : World CreditRequest ResponseCode) (e : equifaxCredit)
    (r : Option CreditRequest) (m : Option Msg) (c : Cert) (v : GoError)
    (hv : Event.verify m c (some v) ∈ (Get w e r).trace) :
    (v ≠ GoError.ErrVerifyingSignature →
        (Get w e r).resp = none ∧ (Get w e r).err = some GoError.ErrInvalidCertificate) ∧
      (v = GoError.ErrVerifyingSignature →
        ∃ p, Event.xmlDecode p (w.xmlDecode p) ∈ (Get w e r).trace ∧
          ((w.xmlDecode p).2 = none →
            (Get w e r).resp = (w.xmlDecode p).1 ∧ (Get w e r).err = none) ∧
          (∀ err, (w.xmlDecode p).2 = some err →
            (Get w e r).resp = none ∧ (Get w e r).err = some err)) := by
  obtain ⟨resp, t1, hG, _, ht1, _⟩ := Get_reaches_decode w e r _ hv rfl
  rw [hG] at hv ⊢
  obtain ⟨hc, _, _, hveq⟩ := decodeReply_verify_mem w e resp t1 ht1 m c _ hv
  obtain ⟨htr, hrun⟩ := decodeReply_run w e resp t1
  obtain ⟨hfatal, hok⟩ := hrun hc
  constructor
  · intro hne
    apply hfatal
    rw [← hveq]
    exact ⟨by simp, by simpa using hne⟩
  · intro heq
    subst heq
    have hnf : ¬ (w.verify (w.openToDecode resp.Body).1 e.crt ≠ none ∧
        w.verify (w.openToDecode resp.Body).1 e.crt ≠ some GoError.ErrVerifyingSignature) := by
      rw [← hveq]
      simp
    refine ⟨(w.ioCopy (w.openToDecode resp.Body).1).1, ?_, (hok hnf).1, (hok hnf).2⟩
    rw [htr]
    simp [hc, ← hveq]

/-- C2 amended, at a reply whose verification fails with another error and at one whose
verification fails with `ErrVerifyingSignature`. -/
theorem Get_verify_error_witness :
    ((Get mismatchWorld sampleClient none).resp = none ∧
        (Get mismatchWorld sampleClient none).err = some GoError.ErrInvalidCertificate) ∧
      ∃ p, Event.xmlDecode p (toleratedWorld.xmlDecode p) ∈
          (Get toleratedWorld sampleClient none).trace ∧
        ((toleratedWorld.xmlDecode p).2 = none →
          (Get toleratedWorld sampleClient none).resp = (toleratedWorld.xmlDecode p).1 ∧
            (Get toleratedWorld sampleClient none).err = none) ∧
        (∀ err, (toleratedWorld.xmlDecode p).2 = some err →
          (Get toleratedWorld sampleClient none).resp = none ∧
            (Get toleratedWorld sampleClient none).err = some err) :=
  ⟨(Get_verify_error mismatchWorld sampleClient none (some ⟨2⟩) ⟨7⟩
      (GoError.New "signer certificate mismatch") (mem_of_index _ 8 _ rfl)).1 (by decide),
    (Get_verify_error toleratedWorld sampleClient none (some ⟨2⟩) ⟨7⟩
      GoError.ErrVerifyingSignature (mem_of_index _ 8 _ rfl)).2 rfl⟩

/-- C3, as stated, fails: the payload of a status 200 reply is copied out without error,
`Verify` fails, and `Get` returns no response at all; the payload is never decoded. -/
theorem Get_failed_verification_counterexample :
    Event.ioCopy (some ⟨2⟩) ([60, 114, 47, 62], none) ∈
        (Get mismatchWorld sampleClient none).trace ∧
      Event.verify (some ⟨2⟩) ⟨7⟩ (some (GoError.New "signer certificate mismatch")) ∈
        (Get mismatchWorld sampleClient none).trace ∧
      (Get mismatchWorld sampleClient none).resp = none ∧
      (Get mismatchWorld sampleClient none).err = some GoError.ErrInvalidCertificate :=
  ⟨mem_of_index _ 7 _ rfl, mem_of_index _ 8 _ rfl, rfl, rfl⟩

/-- C3, amended: when `Verify` on the reply fails, `Get` never returns a response
together with an error.  With an error other than `cryptopro.ErrVerifyingSignature` the
response is nil, the error is `ErrInvalidCertificate` and nothing is handed to the XML
decoder.  With `ErrVerifyingSignature` the payload copied out of the reply message, and
nothing else, is handed to the XML decoder, and when it decodes to `R` without error
`Get` returns `R` with a nil error, so without any verification-failed classification. -/
theorem Get_failed_verification (w : World CreditRequest ResponseCode) (e : equifaxCredit)
    (r : Option CreditRequest) (m : Option Msg) (c : Cert) (v : GoError)
    (hv : Event.verify m c (some v) ∈ (Get w e r).trace) :
    ¬ ((Get w e r).resp ≠ none ∧ (Get w e r).err ≠ none) ∧
      (v ≠ GoError.ErrVerifyingSignature →
        (Get w e r).resp = none ∧ (Get w e r).err = some GoError.ErrInvalidCertificate ∧
          ∀ p d, Event.xmlDecode p d ∉ (Get w e r).trace) ∧
      (v = GoError.ErrVerifyingSignature →
        Event.ioCopy m (w.ioCopy m) ∈ (Get w e r).trace ∧ (w.ioCopy m).2 = none ∧
          Event.xmlDecode (w.ioCopy m).1 (w.xmlDecode (w.ioCopy m).1) ∈ (Get w e r).trace ∧
          (∀ p d, Event.xmlDecode p d ∈ (Get w e r).trace → p = (w.ioCopy m).1) ∧
          ∀ R, w.xmlDecode (w.ioCopy m).1 = (some R, none) →
            (Get w e r).resp = some R ∧ (Get w e r).err = none) := by
  obtain ⟨resp, t1, hG, _, ht1, _⟩ := Get_reaches_decode w e r _ hv rfl
  rw [hG] at hv ⊢
  obtain ⟨hc, hm, _, hveq⟩ := decodeReply_verify_mem w e resp t1 ht1 m c _ hv
  obtain ⟨htr, hrun⟩ := decodeReply_run w e resp t1
  obtain ⟨hfatal, hok⟩ := hrun hc
  refine ⟨?_, ?_, ?_⟩
  · rintro ⟨h1, h2⟩
    by_cases hf : w.verify (w.openToDecode resp.Body).1 e.crt ≠ none ∧
        w.verify (w.openToDecode resp.Body).1 e.crt ≠ some GoError.ErrVerifyingSignature
    · exact h1 (hfatal hf).1
    · cases hx : (w.xmlDecode (w.ioCopy (w.openToDecode resp.Body).1).1).2 with
      | none => exact h2 ((hok hf).1 hx).2
      | some err => exact h1 ((hok hf).2 err hx).1
  · intro hne
    have hf : w.verify (w.openToDecode resp.Body).1 e.crt ≠ none ∧
        w.verify (w.openToDecode resp.Body).1 e.crt ≠ some GoError.ErrVerifyingSignature := by
      rw [← hveq]
      exact ⟨by simp, by simpa using hne⟩
    refine ⟨(hfatal hf).1, (hfatal hf).2, ?_⟩
    intro p d hd
    exact (decodeReply_xmlDecode_mem w e resp t1 ht1 p d hd).2.1 hf
  · intro hvt
    subst hvt
    subst hm
    have hnf : ¬ (w.verify (w.openToDecode resp.Body).1 e.crt ≠ none ∧
        w.verify (w.openToDecode resp.Body).1 e.crt ≠ some GoError.ErrVerifyingSignature) := by
      rw [← hveq]
      simp
    refine ⟨?_, hc, ?_, ?_, ?_⟩
    · rw [htr]
      simp
    · rw [htr]
      simp [hc, ← hveq]
    · intro p d hd
      exact (decodeReply_xmlDecode_mem w e resp t1 ht1 p d hd).2.2.1
    · intro R hR
      have hx : (w.xmlDecode (w.ioCopy (w.openToDecode resp.Body).1).1).2 = none := by
        rw [hR]
      have := (hok hnf).1 hx
      rw [hR] at this
      exact this

/-- C3 amended, at a reply whose verification fails with another error, and at one whose
verification fails with `ErrVerifyingSignature` under a decoder that accepts the copied
payload only. -/
theorem Get_failed_verification_witness :
    ((Get mismatchWorld sampleClient none).resp = none ∧
        (Get mismatchWorld sampleClient none).err = some GoError.ErrInvalidCertificate ∧
        ∀ p d, Event.xmlDecode p d ∉ (Get mismatchWorld sampleClient none).trace) ∧
      (strictToleratedWorld.ioCopy (some ⟨2⟩) = ([60, 114, 47, 62], none) ∧
        strictToleratedWorld.xmlDecode [48, 1, 2] = (none, some (GoError.New "EOF")) ∧
        (Get strictToleratedWorld sampleClient none).resp = some sampleResponse ∧
        (Get strictToleratedWorld sampleClient none).err = none) :=
  ⟨(Get_failed_verification mismatchWorld sampleClient none (some ⟨2⟩) ⟨7⟩
      (GoError.New "signer certificate mismatch") (mem_of_index _ 8 _ rfl)).2.1 (by decide),
    rfl, rfl,
    (Get_failed_verification strictToleratedWorld sampleClient none (some ⟨2⟩) ⟨7⟩
      GoError.ErrVerifyingSignature (mem_of_index _ 8 _ rfl)).2.2 rfl |>.2.2.2.2
      sampleResponse rfl⟩

/-- C4: when the payload `p` was copied out of the reply message without error, `Verify`
on that message returned nil, and the XML decoder decodes `p` to a `CreditResponse` `R`
without error, `Get` hands exactly `p` to the decoder and returns exactly `R` with a nil
error, whatever `R` holds, its response code included.  (The copy and `Verify` are only
reached after every earlier stage succeeded and the gateway answered 200.) -/
theorem Get_returns_decoded (w : World CreditRequest ResponseCode) (e : equifaxCredit)
    (r : Option CreditRequest) (m : Option Msg) (c : Cert) (p : Bytes)
    (R : CreditResponse ResponseCode)
    (hcopy : Event.ioCopy m (p, none) ∈ (Get w e r).trace)
    (hver : Event.verify m c none ∈ (Get w e r).trace)
    (hdec : w.xmlDecode p = (some R, none)) :
    Event.xmlDecode p (some R, none) ∈ (Get w e r).trace ∧
      (∀ q d, Event.xmlDecode q d ∈ (Get w e r).trace → q = p) ∧
      (Get w e r).resp = some R ∧ (Get w e r).err = none := by
  obtain ⟨resp, t1, hG, _, ht1, _⟩ := Get_reaches_decode w e r _ hver rfl
  rw [hG] at hcopy hver ⊢
  obtain ⟨_, hcp⟩ := decodeReply_ioCopy_mem w e resp t1 ht1 m _ hcopy
  obtain ⟨hc, _, _, hveq⟩ := decodeReply_verify_mem w e resp t1 ht1 m c _ hver
  obtain ⟨htr, hrun⟩ := decodeReply_run w e resp t1
  have hp : (w.ioCopy (w.openToDecode resp.Body).1).1 = p := by rw [← hcp]
  have hnf : ¬ (w.verify (w.openToDecode resp.Body).1 e.crt ≠ none ∧
      w.verify (w.openToDecode resp.Body).1 e.crt ≠ some GoError.ErrVerifyingSignature) := by
    rw [← hveq]
    simp
  have hx : (w.xmlDecode (w.ioCopy (w.openToDecode resp.Body).1).1).2 = none := by
    rw [hp, hdec]
  have hres := ((hrun hc).2 hnf).1 hx
  rw [hp, hdec] at hres
  refine ⟨?_, ?_, hres⟩
  · rw [htr]
    simp [hc, ← hveq, hp, hdec]
  · intro q d hd
    rw [(decodeReply_xmlDecode_mem w e resp t1 ht1 q d hd).2.2.1, hp]

/-- C4, at a verified reply whose copied payload decodes to a response with a rejection
code, under a decoder that fails on any other bytes, the raw reply body included. -/
theorem Get_returns_decoded_witness :
    (sampleResponse.Response.map fun x => x.Code) = some "rejected" ∧
      strictWorld.xmlDecode [48, 1, 2] = (none, some (GoError.New "EOF")) ∧
      (Event.xmlDecode [60, 114, 47, 62] (some sampleResponse, none) ∈
          (Get strictWorld sampleClient none).trace ∧
        (∀ q d, Event.xmlDecode q d ∈ (Get strictWorld sampleClient none).trace →
          q = [60, 114, 47, 62]) ∧
        (Get strictWorld sampleClient none).resp = some sampleResponse ∧
        (Get strictWorld sampleClient none).err = none) :=
  ⟨rfl, rfl, Get_returns_decoded strictWorld sampleClient none (some ⟨2⟩) ⟨7⟩
    [60, 114, 47, 62] sampleResponse (mem_of_index _ 7 _ rfl) (mem_of_index _ 8 _ rfl) rfl⟩

/-- C5: `Get` returns a non-nil response exactly when it returns a nil error, for every
request and every behaviour of the collaborators, the XML decoder behaving as
`encoding/xml` does: a `Decode` into a nil pointer that returns no error has allocated
the value. -/
theorem Get_response_iff_no_error (w : World CreditRequest ResponseCode) (e : equifaxCredit)
    (r : Option CreditRequest)
    (hdec : ∀ p, (w.xmlDecode p).2 = none → (w.xmlDecode p).1 ≠ none) :
    (Get w e r).resp ≠ none ↔ (Get w e r).err = none := by
  rcases Get_cases w e r with ⟨resp, t1, hG, _, _, _⟩ | ⟨hr, he, _, _⟩
  · rw [hG]
    obtain ⟨_, hrun⟩ := decodeReply_run w e resp t1
    cases hc : (w.ioCopy (w.openToDecode resp.Body).1).2 with
    | some err =>
      unfold Get.decodeReply
      simp [hc]
    | none =>
      obtain ⟨hfatal, hok⟩ := hrun hc
      by_cases hf : w.verify (w.openToDecode resp.Body).1 e.crt ≠ none ∧
          w.verify (w.openToDecode resp.Body).1 e.crt ≠ some GoError.ErrVerifyingSignature
      · rw [(hfatal hf).1, (hfatal hf).2]
        simp
      · cases hx : (w.xmlDecode (w.ioCopy (w.openToDecode resp.Body).1).1).2 with
        | none =>
          rw [((hok hf).1 hx).1, ((hok hf).1 hx).2]
          simpa using hdec _ hx
        | some err =>
          rw [((hok hf).2 err hx).1, ((hok hf).2 err hx).2]
          simp
  · simp [hr, he]

/-- C5, at a run that returns a response and at a run that returns an error. -/
theorem Get_response_iff_no_error_witness :
    ((Get goodWorld sampleClient none).resp ≠ none ↔
        (Get goodWorld sampleClient none).err = none) ∧
      ((Get rejectWorld sampleClient none).resp ≠ none ↔
        (Get rejectWorld sampleClient none).err = none) ∧
      (Get goodWorld sampleClient none).err = none ∧
      (Get rejectWorld sampleClient none).err ≠ none :=
  ⟨Get_response_iff_no_error goodWorld sampleClient none (fun _ _ => by simp [goodWorld]),
    Get_response_iff_no_error rejectWorld sampleClient none
      (fun _ _ => by simp [rejectWorld, goodWorld]),
    rfl, by decide⟩

/-- C10, what the code does: when `cryptopro.OpenToDecode` returns an error, `Get` does
not return it.  It goes on to copy the payload out of the message returned beside the
error, and when that copy reports no error it goes on to call `Verify` as well. -/
theorem Get_open_error_ignored (w : World CreditRequest ResponseCode) (e : equifaxCredit)
    (r : Option CreditRequest) (body : Bytes) (m : Option Msg) (err : GoError)
    (hopen : Event.openToDecode body (m, some err) ∈ (Get w e r).trace) :
    Event.ioCopy m (w.ioCopy m) ∈ (Get w e r).trace ∧
      ((w.ioCopy m).2 = none →
        Event.verify m e.crt (w.verify m e.crt) ∈ (Get w e r).trace) := by
  obtain ⟨resp, t1, hG, _, ht1, _⟩ := Get_reaches_decode w e r _ hopen rfl
  rw [hG] at hopen ⊢
  obtain ⟨_, ho⟩ := decodeReply_openToDecode_mem w e resp t1 ht1 body _ hopen
  have hm : (w.openToDecode resp.Body).1 = m := by rw [← ho]
  rw [(decodeReply_run w e resp t1).1, hm]
  constructor
  · simp
  · intro hc
    simp [hc]

/-- C10, at a status 200 reply whose body is not an envelope: the copy is attempted on
the missing message, and the error `Get` returns is the error of the copy. -/
theorem Get_open_error_ignored_witness :
    Event.ioCopy none ([], some (GoError.New "cryptopro: read")) ∈
        (Get badEnvelopeWorld sampleClient none).trace ∧
      (Get badEnvelopeWorld sampleClient none).err = some (GoError.New "cryptopro: read") :=
  ⟨(Get_open_error_ignored badEnvelopeWorld sampleClient none [111, 111, 112, 115] none
      (GoError.New "cryptopro: not a message") (mem_of_index _ 6 _ rfl)).1, rfl⟩

/-! ## Schema validation -/

/-- Joining a list of strings puts the first one in front of the join of the rest. -/
theorem join_cons (x : String) (xs : List String) :
    String.join (x :: xs) = x ++ String.join xs := by
  rw [String.join_eq, String.join_eq]
  apply String.ext
  simp [String.data_append]

/-- The loop of `requestValidate` appends to `errorMsg` every message with its separator. -/
theorem foldl_validation (errs : List String) (acc : String) :
    errs.foldl (fun errorMsg v => errorMsg ++ (v ++ validationSep)) acc =
      acc ++ String.join (errs.map fun v => v ++ validationSep) := by
  induction errs generalizing acc with
  | nil => simp [String.join]
  | cons v vs ih =>
    simp only [List.foldl_cons, List.map_cons]
    rw [ih, join_cons, String.append_assoc]

/-- Every member of a list of strings stands, whole, inside the join of the list with
each member followed by the separator. -/
theorem join_contains (errs : List String) (v : String) (hv : v ∈ errs) :
    ∃ pre post, String.join (errs.map fun x => x ++ validationSep) =
      pre ++ (v ++ validationSep) ++ post := by
  induction errs with
  | nil => cases hv
  | cons x xs ih =>
    rw [List.map_cons, join_cons]
    rcases List.mem_cons.mp hv with h | h
    · subst h
      exact ⟨"", String.join (xs.map fun x => x ++ validationSep), by simp⟩
    · obtain ⟨pre, post, hp⟩ := ih h
      refine ⟨(x ++ validationSep) ++ pre, post, ?_⟩
      rw [hp]
      simp [String.append_assoc]

/-- C6: when the schema check returns a list of violations, the one error
`requestValidate` returns carries the concatenation, in the validator's order, of every
violation's message followed by the separator: one segment per violation, and every
violation's message stands in it with its separator. -/
theorem requestValidate_reports_all (w : World CreditRequest ResponseCode)
    (e : equifaxCredit) (reqBytes : Bytes) (doc : Document) (xsdSchema : Bytes)
    (sc : Schema) (errs : List String)
    (hparse : w.parseReader reqBytes = Except.ok doc)
    (hread : w.readFile e.schema = Except.ok xsdSchema)
    (hxsd : w.xsdParse xsdSchema = Except.ok sc)
    (hval : w.xsdValidate sc doc = some errs) :
    requestValidate w e reqBytes =
        some (GoError.New (String.join (errs.map fun v => v ++ validationSep))) ∧
      (errs.map fun v => v ++ validationSep).length = errs.length ∧
      ∀ v ∈ errs, ∃ pre post, String.join (errs.map fun x => x ++ validationSep) =
        pre ++ (v ++ validationSep) ++ post := by
  refine ⟨?_, by simp, fun v hv => join_contains errs v hv⟩
  unfold requestValidate
  simp only [hparse, hread, hxsd, hval]
  rw [foldl_validation]
  simp

/-- C6, at a request with two violations: both messages are in the returned error. -/
theorem requestValidate_reports_all_witness :
    requestValidate violationsWorld schemaClient [60, 120, 47, 62] =
      some (GoError.New "element city: missing/nelement index: too long/n") :=
  (requestValidate_reports_all violationsWorld schemaClient [60, 120, 47, 62] ⟨1⟩
    [60, 120, 62] ⟨1⟩ ["element city: missing", "element index: too long"]
    rfl rfl rfl rfl).1

/-! ## Transcoding to the wire code page -/

/-- The encoder fails as soon as the text holds a character without a representation. -/
theorem charmapEncode_unsupported (table : Char → Option Nat) (cs : List Char) (c : Char)
    (hc : c ∈ cs) (hnone : table c = none) :
    charmapEncode table cs = Except.error UnsupportedCharacter := by
  induction cs with
  | nil => cases hc
  | cons x xs ih =>
    unfold charmapEncode
    cases hx : table x with
    | none => rfl
    | some b =>
      simp only []
      rcases List.mem_cons.mp hc with h | h
      · subst h
        rw [hnone] at hx
        cases hx
      · rw [ih h]

/-- A successful encoding holds, position by position, the table's byte of each
character: nothing is replaced and nothing is left out. -/
theorem charmapEncode_ok (table : Char → Option Nat) (cs : List Char) (bs : Bytes)
    (h : charmapEncode table cs = Except.ok bs) : cs.map table = bs.map some := by
  induction cs generalizing bs with
  | nil =>
    unfold charmapEncode at h
    cases h
    rfl
  | cons x xs ih =>
    unfold charmapEncode at h
    cases hx : table x with
    | none =>
      rw [hx] at h
      cases h
    | some b =>
      rw [hx] at h
      simp only [] at h
      cases hr : charmapEncode table xs with
      | error err =>
        rw [hr] at h
        cases h
      | ok ys =>
        rw [hr] at h
        cases h
        simp [hx, ih ys hr]

/-- The encoder succeeds on a text all of whose characters have a representation. -/
theorem charmapEncode_total (table : Char → Option Nat) (cs : List Char)
    (h : ∀ c ∈ cs, table c ≠ none) : ∃ bs, charmapEncode table cs = Except.ok bs := by
  induction cs with
  | nil => exact ⟨[], rfl⟩
  | cons x xs ih =>
    obtain ⟨ys, hys⟩ := ih (fun c hc => h c (List.mem_cons_of_mem _ hc))
    cases hx : table x with
    | none => exact absurd hx (h x (List.mem_cons_self _ _))
    | some b =>
      refine ⟨b :: ys, ?_⟩
      unfold charmapEncode
      simp [hx, hys]

/-- The trace handed to `Get.decodeReply` is kept at the head of its trace. -/
theorem decodeReply_subset (w : World CreditRequest ResponseCode) (e : equifaxCredit)
    (resp : HttpResponse) (t : List (Event CreditRequest ResponseCode))
    (ev : Event CreditRequest ResponseCode) (hev : ev ∈ t) :
    ev ∈ (Get.decodeReply w e resp t).trace := by
  obtain ⟨s, hs, _⟩ := decodeReply_trace w e resp t
  rw [hs]
  exact List.mem_append_left _ hev

/-- Every call in the trace of `Get.signAndSend` was already in the trace it was given,
or is a decode stage, or is a signing or sending call; the one write into the signed
message is given the transcoded bytes. -/
theorem signAndSend_trace (w : World CreditRequest ResponseCode) (e : equifaxCredit)
    (bs : Bytes) (t : List (Event CreditRequest ResponseCode))
    (ev : Event CreditRequest ResponseCode) (hev : ev ∈ (Get.signAndSend w e bs t).trace) :
    ev ∈ t ∨ ev.isDecodeStage = true ∨
      (ev.isSignOrSend = true ∧ ∀ m b o, ev = Event.msgWrite m b o → b = bs) := by
  have key : ∀ l : List (Event CreditRequest ResponseCode), ev ∈ l →
      (∀ x ∈ l, x ∈ t ∨ (x.isSignOrSend = true ∧ ∀ m b o, x = Event.msgWrite m b o → b = bs)) →
      ev ∈ t ∨ ev.isDecodeStage = true ∨
        (ev.isSignOrSend = true ∧ ∀ m b o, ev = Event.msgWrite m b o → b = bs) := by
    intro l hl h
    rcases h ev hl with h | h
    · exact Or.inl h
    · exact Or.inr (Or.inr h)
  have hT : ∀ x ∈ (if e.saveReq = true then
        t ++ [Event.openToEncode [e.crt] (w.openToEncode [e.crt])] ++
            [Event.msgWrite (w.openToEncode [e.crt]).1 bs
              (w.msgWrite (w.openToEncode [e.crt]).1 bs)] ++
            [Event.msgClose (w.openToEncode [e.crt]).1
              (w.msgClose (w.openToEncode [e.crt]).1 bs)] ++
          [Event.writeFile (w.now ++ ".sig") (w.msgClose (w.openToEncode [e.crt]).1 bs)]
      else
        t ++ [Event.openToEncode [e.crt] (w.openToEncode [e.crt])] ++
            [Event.msgWrite (w.openToEncode [e.crt]).1 bs
              (w.msgWrite (w.openToEncode [e.crt]).1 bs)] ++
            [Event.msgClose (w.openToEncode [e.crt]).1
              (w.msgClose (w.openToEncode [e.crt]).1 bs)]),
      x ∈ t ∨ (x.isSignOrSend = true ∧ ∀ m b o, x = Event.msgWrite m b o → b = bs) := by
    intro x hx
    split at hx
    · simp only [List.mem_append, List.mem_singleton] at hx
      rcases hx with (((h | h) | h) | h) | h
      · exact Or.inl h
      all_goals subst h; exact Or.inr ⟨rfl, fun _ _ _ hh => by cases hh; try rfl⟩
    · simp only [List.mem_append, List.mem_singleton] at hx
      rcases hx with ((h | h) | h) | h
      · exact Or.inl h
      all_goals subst h; exact Or.inr ⟨rfl, fun _ _ _ hh => by cases hh; try rfl⟩
  have hT2 : ∀ o, ∀ x ∈ (if e.saveReq = true then
        t ++ [Event.openToEncode [e.crt] (w.openToEncode [e.crt])] ++
            [Event.msgWrite (w.openToEncode [e.crt]).1 bs
              (w.msgWrite (w.openToEncode [e.crt]).1 bs)] ++
            [Event.msgClose (w.openToEncode [e.crt]).1
              (w.msgClose (w.openToEncode [e.crt]).1 bs)] ++
          [Event.writeFile (w.now ++ ".sig") (w.msgClose (w.openToEncode [e.crt]).1 bs)]
      else
        t ++ [Event.openToEncode [e.crt] (w.openToEncode [e.crt])] ++
            [Event.msgWrite (w.openToEncode [e.crt]).1 bs
              (w.msgWrite (w.openToEncode [e.crt]).1 bs)] ++
            [Event.msgClose (w.openToEncode [e.crt]).1
              (w.msgClose (w.openToEncode [e.crt]).1 bs)]) ++
        [Event.httpPost e.url "application/octet-stream"
          (w.msgClose (w.openToEncode [e.crt]).1 bs) o],
      x ∈ t ∨ (x.isSignOrSend = true ∧ ∀ m b o, x = Event.msgWrite m b o → b = bs) := by
    intro o x hx
    rcases List.mem_append.mp hx with h | h
    · exact hT x h
    · simp only [List.mem_singleton] at h
      subst h
      exact Or.inr ⟨rfl, fun _ _ _ hh => by cases hh⟩
  unfold Get.signAndSend at hev
  simp only [] at hev
  split at hev
  · apply key _ hev
    intro x hx
    simp only [List.mem_append, List.mem_singleton] at hx
    rcases hx with h | h
    · exact Or.inl h
    · subst h; exact Or.inr ⟨rfl, fun _ _ _ hh => by cases hh⟩
  · split at hev
    · apply key _ hev
      intro x hx
      simp only [List.mem_append, List.mem_singleton] at hx
      rcases hx with (h | h) | h
      · exact Or.inl h
      · subst h; exact Or.inr ⟨rfl, fun _ _ _ hh => by cases hh⟩
      · subst h; exact Or.inr ⟨rfl, fun _ _ _ hh => by cases hh; rfl⟩
    · split at hev
      · exact key _ hev (hT2 _)
      · split at hev
        · exact key _ hev (hT2 _)
        · obtain ⟨s, hs, hdec⟩ := decodeReply_trace w e _ _
          rw [hs] at hev
          rcases List.mem_append.mp hev with h | h
          · exact key _ h (hT2 _)
          · exact Or.inr (Or.inl (hdec _ h))

/-- The trace handed to `Get.signAndSend` is kept in its trace, the call that opens the
signed message follows, and the write into it when the opening succeeded. -/
theorem signAndSend_subset (w : World CreditRequest ResponseCode) (e : equifaxCredit)
    (bs : Bytes) (t : List (Event CreditRequest ResponseCode)) :
    (∀ ev ∈ t, ev ∈ (Get.signAndSend w e bs t).trace) ∧
      ((w.openToEncode [e.crt]).2 = none →
        Event.msgWrite (w.openToEncode [e.crt]).1 bs
          (w.msgWrite (w.openToEncode [e.crt]).1 bs) ∈ (Get.signAndSend w e bs t).trace) := by
  unfold Get.signAndSend
  simp only []
  split
  · rename_i err h1
    refine ⟨fun ev hev => by simp [hev], fun h => ?_⟩
    rw [h] at h1
    cases h1
  · split
    · exact ⟨fun ev hev => by simp [hev], fun _ => by simp⟩
    · split
      · split
        · exact ⟨fun ev hev => by simp [hev], fun _ => by simp⟩
        · exact ⟨fun ev hev => by simp [hev], fun _ => by simp⟩
      · split
        · split
          · exact ⟨fun ev hev => by simp [hev], fun _ => by simp⟩
          · exact ⟨fun ev hev => by simp [hev], fun _ => by simp⟩
        · constructor
          · intro ev hev
            apply decodeReply_subset
            split <;> simp [hev]
          · intro _
            apply decodeReply_subset
            split <;> simp

/-- Every call in the trace of `Get` is the serializer call, the transcoder call on the
declaration followed by the serialized text, or comes after a successful transcoding:
the validator call on the transcoded bytes, a signing or sending call (the write into
the signed message being given the transcoded bytes), or a decode stage. -/
theorem Get_trace (w : World CreditRequest ResponseCode) (e : equifaxCredit)
    (r : Option CreditRequest) (ev : Event CreditRequest ResponseCode)
    (hev : ev ∈ (Get w e r).trace) :
    ev = Event.xmlEncode ⟨EquifaxCreditVersion, e.partnerID, r⟩
        (w.xmlEncode ⟨EquifaxCreditVersion, e.partnerID, r⟩) ∨
      ev = Event.charmapEncode
        (xmlDecl ++ (w.xmlEncode ⟨EquifaxCreditVersion, e.partnerID, r⟩).1)
        (charmapEncode w.windows1251
          (xmlDecl ++ (w.xmlEncode ⟨EquifaxCreditVersion, e.partnerID, r⟩).1).data) ∨
      ∃ bs, charmapEncode w.windows1251
          (xmlDecl ++ (w.xmlEncode ⟨EquifaxCreditVersion, e.partnerID, r⟩).1).data =
            Except.ok bs ∧
        (ev = Event.requestValidate bs (requestValidate w e bs) ∨
          ev.isDecodeStage = true ∨
          (ev.isSignOrSend = true ∧ ∀ m b o, ev = Event.msgWrite m b o → b = bs)) := by
  unfold Get at hev
  simp only [] at hev
  split at hev
  · simp only [List.mem_singleton] at hev
    exact Or.inl hev
  · split at hev
    · simp only [List.mem_append, List.mem_singleton, List.mem_cons, List.not_mem_nil,
        or_false] at hev
      rcases hev with h | h
      · exact Or.inl h
      · exact Or.inr (Or.inl h)
    · rename_i bs henc
      split at hev
      · split at hev
        · simp only [List.mem_append, List.mem_singleton, List.mem_cons, List.not_mem_nil,
            or_false] at hev
          rcases hev with (h | h) | h
          · exact Or.inl h
          · exact Or.inr (Or.inl h)
          · exact Or.inr (Or.inr ⟨bs, henc, Or.inl h⟩)
        · rcases signAndSend_trace w e bs _ ev hev with h | h | h
          · simp only [List.mem_append, List.mem_singleton, List.mem_cons, List.not_mem_nil,
              or_false] at h
            rcases h with (h | h) | h
            · exact Or.inl h
            · exact Or.inr (Or.inl h)
            · exact Or.inr (Or.inr ⟨bs, henc, Or.inl h⟩)
          · exact Or.inr (Or.inr ⟨bs, henc, Or.inr (Or.inl h)⟩)
          · exact Or.inr (Or.inr ⟨bs, henc, Or.inr (Or.inr h)⟩)
      · rcases signAndSend_trace w e bs _ ev hev with h | h | h
        · simp only [List.mem_append, List.mem_singleton, List.mem_cons, List.not_mem_nil,
            or_false] at h
          rcases h with h | h
          · exact Or.inl h
          · exact Or.inr (Or.inl h)
        · exact Or.inr (Or.inr ⟨bs, henc, Or.inr (Or.inl h)⟩)
        · exact Or.inr (Or.inr ⟨bs, henc, Or.inr (Or.inr h)⟩)

/-- Once the request is serialized, the transcoder call is in the trace of `Get`. -/
theorem Get_transcode_mem (w : World CreditRequest ResponseCode) (e : equifaxCredit)
    (r : Option CreditRequest)
    (hser : (w.xmlEncode ⟨EquifaxCreditVersion, e.partnerID, r⟩).2 = none) :
    Event.charmapEncode (xmlDecl ++ (w.xmlEncode ⟨EquifaxCreditVersion, e.partnerID, r⟩).1)
      (charmapEncode w.windows1251
        (xmlDecl ++ (w.xmlEncode ⟨EquifaxCreditVersion, e.partnerID, r⟩).1).data) ∈
      (Get w e r).trace := by
  unfold Get
  simp only [hser]
  split
  · simp
  · split
    · split
      · simp
      · exact (signAndSend_subset w e _ _).1 _ (by simp)
    · exact (signAndSend_subset w e _ _).1 _ (by simp)

/-- C7: for a request that serializes to a document, declaration included, (1) if some
character of the document has no representation in the code table, `Get` returns a nil
response and the encoder's error and has made no signing, saving or transmitting call;
(2) if `Get` hands encoded bytes on, they are position by position the table's bytes of
the characters, none replaced and none dropped; (3) if every character has a
representation, the transcoding stage of `Get` succeeds. -/
theorem Get_transcoding (w : World CreditRequest ResponseCode) (e : equifaxCredit)
    (r : Option CreditRequest) (body : String)
    (hser : w.xmlEncode ⟨EquifaxCreditVersion, e.partnerID, r⟩ = (body, none)) :
    (∀ c ∈ (xmlDecl ++ body).data, w.windows1251 c = none →
        (Get w e r).resp = none ∧ (Get w e r).err = some UnsupportedCharacter ∧
          ∀ ev ∈ (Get w e r).trace, ev.isSignOrSend = false) ∧
      (∀ bs, Event.charmapEncode (xmlDecl ++ body) (Except.ok bs) ∈ (Get w e r).trace →
        (xmlDecl ++ body).data.map w.windows1251 = bs.map some) ∧
      ((∀ c ∈ (xmlDecl ++ body).data, w.windows1251 c ≠ none) →
        ∃ bs, Event.charmapEncode (xmlDecl ++ body) (Except.ok bs) ∈ (Get w e r).trace) := by
  have hser2 : (w.xmlEncode ⟨EquifaxCreditVersion, e.partnerID, r⟩).2 = none := by rw [hser]
  have hser1 : (w.xmlEncode ⟨EquifaxCreditVersion, e.partnerID, r⟩).1 = body := by rw [hser]
  refine ⟨?_, ?_, ?_⟩
  · intro c hc hnone
    have henc := charmapEncode_unsupported w.windows1251 _ c hc hnone
    unfold Get
    simp only [hser2, hser1, henc]
    simp [Event.isSignOrSend]
  · intro bs hbs
    rcases Get_trace w e r _ hbs with h | h | ⟨bs1, _, h | h | h⟩
    · cases h
    · injection h with _ hh
      rw [hser1] at hh
      exact charmapEncode_ok _ _ _ hh.symm
    · cases h
    · simp [Event.isDecodeStage] at h
    · simp [Event.isSignOrSend] at h
  · intro hall
    obtain ⟨bs, hbs⟩ := charmapEncode_total w.windows1251 _ hall
    refine ⟨bs, ?_⟩
    have := Get_transcode_mem w e r hser2
    rw [hser1, hbs] at this
    exact this

/-- C7, at a request whose document holds U+4E2D, outside the sample table, and at a
request whose document is all in the table. -/
theorem Get_transcoding_witness :
    ((Get unsupportedWorld sampleClient none).resp = none ∧
        (Get unsupportedWorld sampleClient none).err = some UnsupportedCharacter ∧
        ∀ ev ∈ (Get unsupportedWorld sampleClient none).trace, ev.isSignOrSend = false) ∧
      ∃ bs, Event.charmapEncode
          (xmlDecl ++ "<bki_request version=\"3.4\" partnerid=\"P1\"></bki_request>")
          (Except.ok bs) ∈ (Get goodWorld sampleClient none).trace :=
  ⟨(Get_transcoding unsupportedWorld sampleClient none
      "<bki_request><city>中</city></bki_request>" rfl).1 '中' (by decide) (by decide),
    (Get_transcoding goodWorld sampleClient none
      "<bki_request version=\"3.4\" partnerid=\"P1\"></bki_request>" rfl).2.2 (by decide)⟩

/-- When the table keeps the characters of a text as their own codes, a successful
encoding of that text followed by more starts with those codes. -/
theorem charmapEncode_prefix (table : Char → Option Nat) (pre rest : List Char) (bs : Bytes)
    (hpre : ∀ c ∈ pre, table c = some c.toNat)
    (h : charmapEncode table (pre ++ rest) = Except.ok bs) :
    pre.map Char.toNat <+: bs := by
  have hmap := charmapEncode_ok table _ bs h
  rw [List.map_append] at hmap
  obtain ⟨l1, l2, hbs, h1, _⟩ := List.map_eq_append_iff.mp hmap.symm
  have hpre2 : pre.map table = (pre.map Char.toNat).map some := by
    rw [List.map_map]
    exact List.map_congr_left hpre
  rw [hpre2] at h1
  have : l1 = pre.map Char.toNat :=
    (List.map_injective_iff.mpr (Option.some_injective _)) h1
  rw [hbs, this]
  exact List.prefix_append _ _

/-- C8: for a request that `Get` serializes and transcodes, the transcoded bytes begin
with the bytes of the text `<?xml version="1.0" encoding="windows-1251"?>` and a newline,
which is the declaration `Get` writes (the table keeps those ASCII characters, as
Windows-1251 does); they are the code-table encoding of the whole document, the
declaration followed by the serialized text; and these are the bytes `Get` hands to the
validator, when a schema is configured, and writes into the signed message. -/
theorem Get_wire_document (w : World CreditRequest ResponseCode) (e : equifaxCredit)
    (r : Option CreditRequest) (body : String) (bs : Bytes)
    (hser : w.xmlEncode ⟨EquifaxCreditVersion, e.partnerID, r⟩ = (body, none))
    (henc : charmapEncode w.windows1251 (xmlDecl ++ body).data = Except.ok bs)
    (hascii : ∀ c ∈ xmlDecl.data, w.windows1251 c = some c.toNat) :
    ("<?xml version=\"1.0\" encoding=\"windows-1251\"?>\n").data.map Char.toNat <+: bs ∧
      xmlDecl = "<?xml version=\"1.0\" encoding=\"windows-1251\"?>\n" ∧
      (xmlDecl ++ body).data.map w.windows1251 = bs.map some ∧
      (∀ b o, Event.requestValidate b o ∈ (Get w e r).trace → b = bs) ∧
      (∀ m b o, Event.msgWrite m b o ∈ (Get w e r).trace → b = bs) ∧
      (e.schema ≠ "" →
        Event.requestValidate bs (requestValidate w e bs) ∈ (Get w e r).trace) ∧
      ((e.schema ≠ "" → requestValidate w e bs = none) →
        (w.openToEncode [e.crt]).2 = none →
        Event.msgWrite (w.openToEncode [e.crt]).1 bs
          (w.msgWrite (w.openToEncode [e.crt]).1 bs) ∈ (Get w e r).trace) := by
  have hser2 : (w.xmlEncode ⟨EquifaxCreditVersion, e.partnerID, r⟩).2 = none := by rw [hser]
  have hser1 : (w.xmlEncode ⟨EquifaxCreditVersion, e.partnerID, r⟩).1 = body := by rw [hser]
  have hdecl : xmlDecl = "<?xml version=\"1.0\" encoding=\"windows-1251\"?>\n" := by decide
  refine ⟨?_, hdecl, charmapEncode_ok _ _ _ henc, ?_, ?_, ?_, ?_⟩
  · rw [String.data_append] at henc
    rw [← hdecl]
    exact charmapEncode_prefix _ _ _ _ hascii henc
  · intro b o hb
    rcases Get_trace w e r _ hb with h | h | ⟨bs1, hbs1, h | h | h⟩
    · cases h
    · cases h
    · rw [hser1, henc] at hbs1
      cases hbs1
      injection h with h1 _
    · simp [Event.isDecodeStage] at h
    · simp [Event.isSignOrSend] at h
  · intro m b o hb
    rcases Get_trace w e r _ hb with h | h | ⟨bs1, hbs1, h | h | h⟩
    · cases h
    · cases h
    · cases h
    · simp [Event.isDecodeStage] at h
    · rw [hser1, henc] at hbs1
      cases hbs1
      exact h.2 m b o rfl
  · intro hsch
    unfold Get
    simp only [hser2, hser1, henc]
    split
    · cases hval : requestValidate w e bs with
      | some err => simp
      | none => exact (signAndSend_subset w e _ _).1 _ (by simp [hval])
    · rename_i hne
      exact absurd hsch hne
  · intro hval hopen
    unfold Get
    simp only [hser2, hser1, henc]
    split
    · rename_i hsch
      simp only [hval hsch]
      exact (signAndSend_subset w e _ _).2 hopen
    · exact (signAndSend_subset w e _ _).2 hopen

/-- C8, at a client with a schema: the validator and the signed message are given the
encoded document, spelled out, which starts with the 46 bytes of the declaration. -/
theorem Get_wire_document_witness :
    ([60, 63, 120, 109, 108, 32, 118, 101, 114, 115, 105, 111, 110, 61, 34, 49,
        46, 48, 34, 32, 101, 110, 99, 111, 100, 105, 110, 103, 61, 34, 119, 105,
        110, 100, 111, 119, 115, 45, 49, 50, 53, 49, 34, 63, 62, 10] <+:
        ("<?xml version=\"1.0\" encoding=\"windows-1251\"?>\n<bki_request version=\"3.4\" partnerid=\"P1\"></bki_request>").data.map
          Char.toNat) ∧
      Event.requestValidate
          (("<?xml version=\"1.0\" encoding=\"windows-1251\"?>\n<bki_request version=\"3.4\" partnerid=\"P1\"></bki_request>").data.map
            Char.toNat)
          none ∈ (Get goodWorld schemaClient none).trace ∧
      Event.msgWrite (some ⟨1⟩)
          (("<?xml version=\"1.0\" encoding=\"windows-1251\"?>\n<bki_request version=\"3.4\" partnerid=\"P1\"></bki_request>").data.map
            Char.toNat)
          none ∈ (Get goodWorld schemaClient none).trace :=
  have h := Get_wire_document goodWorld schemaClient none
    "<bki_request version=\"3.4\" partnerid=\"P1\"></bki_request>"
    (("<?xml version=\"1.0\" encoding=\"windows-1251\"?>\n<bki_request version=\"3.4\" partnerid=\"P1\"></bki_request>").data.map
      Char.toNat) rfl rfl (by decide)
  ⟨h.1, h.2.2.2.2.2.1 (by decide), h.2.2.2.2.2.2 (fun _ => rfl) rfl⟩

/-! ## The two classes of verification failure -/

/-- Up to the reply, `Get.signAndSend` does not depend on what `Verify` returns: in the
world with another `Verify` it returns the same, or both runs hand the same reply and
trace to `Get.decodeReply`. -/
theorem signAndSend_withVerify (w : World CreditRequest ResponseCode) (e : equifaxCredit)
    (f : Option Msg → Cert → Option GoError) (bs : Bytes)
    (t : List (Event CreditRequest ResponseCode)) (ht : ∀ x ∈ t, x.isDecodeStage = false) :
    (∃ resp t1, Get.signAndSend w e bs t = Get.decodeReply w e resp t1 ∧
        Get.signAndSend (w.withVerify f) e bs t = Get.decodeReply (w.withVerify f) e resp t1 ∧
        ∀ x ∈ t1, x.isDecodeStage = false) ∨
      Get.signAndSend (w.withVerify f) e bs t = Get.signAndSend w e bs t := by
  unfold Get.signAndSend
  simp only [World.withVerify]
  split
  · right; rfl
  · split
    · right; rfl
    · split
      · right; rfl
      · split
        · right; rfl
        · left
          refine ⟨_, _, rfl, rfl, ?_⟩
          intro x hx
          rcases List.mem_append.mp hx with h | h
          · split at h
            · simp only [List.mem_append, List.mem_singleton] at h
              rcases h with (((h | h) | h) | h) | h
              · exact ht x h
              all_goals subst h; rfl
            · simp only [List.mem_append, List.mem_singleton] at h
              rcases h with ((h | h) | h) | h
              · exact ht x h
              all_goals subst h; rfl
          · simp only [List.mem_singleton] at h
            subst h; rfl

/-- Up to the reply, `Get` does not depend on what `Verify` returns. -/
theorem Get_withVerify (w : World CreditRequest ResponseCode) (e : equifaxCredit)
    (f : Option Msg → Cert → Option GoError) (r : Option CreditRequest) :
    (∃ resp t1, Get w e r = Get.decodeReply w e resp t1 ∧
        Get (w.withVerify f) e r = Get.decodeReply (w.withVerify f) e resp t1 ∧
        ∀ x ∈ t1, x.isDecodeStage = false) ∨
      Get (w.withVerify f) e r = Get w e r := by
  have hrv : ∀ b, requestValidate (w.withVerify f) e b = requestValidate w e b :=
    fun _ => rfl
  have hx : (w.withVerify f).xmlEncode = w.xmlEncode := rfl
  have hc : (w.withVerify f).windows1251 = w.windows1251 := rfl
  unfold Get
  simp only [hrv, hx, hc]
  split
  · right; rfl
  · split
    · right; rfl
    · split
      · split
        · right; rfl
        · apply signAndSend_withVerify
          intro x hx
          simp only [List.mem_append, List.mem_singleton] at hx
          rcases hx with (h | h) | h <;> subst h <;> rfl
      · apply signAndSend_withVerify
        intro x hx
        simp only [List.mem_append, List.mem_singleton] at hx
        rcases hx with h | h <;> subst h <;> rfl

/-- C11: `Get` treats the results of `Verify` on the reply in two ways.  When `Verify`
returns `cryptopro.ErrVerifyingSignature`, the error the code compares against, `Get`
goes on to the XML decoder and returns exactly the response and the error it returns in
the world where the same reply verifies (every other call answering the same).  When
`Verify` returns any other error, `Get` returns a nil response with
`ErrInvalidCertificate` and never hands the payload to the decoder, whatever it holds. -/
theorem Get_verify_asymmetry (w : World CreditRequest ResponseCode) (e : equifaxCredit)
    (r : Option CreditRequest) (m : Option Msg) (c : Cert) (v : GoError)
    (hv : Event.verify m c (some v) ∈ (Get w e r).trace) :
    (v = GoError.ErrVerifyingSignature →
        (∃ p, Event.xmlDecode p (w.xmlDecode p) ∈ (Get w e r).trace) ∧
          Event.verify m c none ∈ (Get (w.withVerify fun _ _ => none) e r).trace ∧
          (Get w e r).resp = (Get (w.withVerify fun _ _ => none) e r).resp ∧
          (Get w e r).err = (Get (w.withVerify fun _ _ => none) e r).err) ∧
      (v ≠ GoError.ErrVerifyingSignature →
        (Get w e r).resp = none ∧ (Get w e r).err = some GoError.ErrInvalidCertificate ∧
          ∀ p d, Event.xmlDecode p d ∉ (Get w e r).trace) := by
  rcases Get_withVerify w e (fun _ _ => none) r with ⟨resp, t1, hG, hG1, ht1⟩ | heq
  · rw [hG] at hv ⊢
    rw [hG1]
    obtain ⟨hc, hm, hcrt, hveq⟩ := decodeReply_verify_mem w e resp t1 ht1 m c _ hv
    obtain ⟨htr, hrun⟩ := decodeReply_run w e resp t1
    obtain ⟨hfatal, hok⟩ := hrun hc
    obtain ⟨htr1, hrun1⟩ := decodeReply_run (w.withVerify fun _ _ => none) e resp t1
    have hok1 := (hrun1 hc).2 (by simp [World.withVerify])
    constructor
    · intro hvt
      subst hvt
      have hnf : ¬ (w.verify (w.openToDecode resp.Body).1 e.crt ≠ none ∧
          w.verify (w.openToDecode resp.Body).1 e.crt ≠
            some GoError.ErrVerifyingSignature) := by
        rw [← hveq]
        simp
      refine ⟨⟨(w.ioCopy (w.openToDecode resp.Body).1).1, ?_⟩, ?_, ?_⟩
      · rw [htr]
        simp [hc, ← hveq]
      · rw [htr1, hm, hcrt]
        simp [World.withVerify, hc]
      · cases hx : (w.xmlDecode (w.ioCopy (w.openToDecode resp.Body).1).1).2 with
        | none =>
          rw [((hok hnf).1 hx).1, ((hok hnf).1 hx).2, (hok1.1 hx).1, (hok1.1 hx).2]
          exact ⟨rfl, rfl⟩
        | some err =>
          rw [((hok hnf).2 err hx).1, ((hok hnf).2 err hx).2, (hok1.2 err hx).1,
            (hok1.2 err hx).2]
          exact ⟨rfl, rfl⟩
    · intro hne
      have hf : w.verify (w.openToDecode resp.Body).1 e.crt ≠ none ∧
          w.verify (w.openToDecode resp.Body).1 e.crt ≠
            some GoError.ErrVerifyingSignature := by
        rw [← hveq]
        exact ⟨by simp, by simpa using hne⟩
      refine ⟨(hfatal hf).1, (hfatal hf).2, ?_⟩
      intro p d hd
      exact (decodeReply_xmlDecode_mem w e resp t1 ht1 p d hd).2.1 hf
  · exfalso
    rw [← heq] at hv
    obtain ⟨resp, t1, hG, _, ht1, _⟩ :=
      Get_reaches_decode (w.withVerify fun _ _ => none) e r _ hv rfl
    rw [hG] at hv
    have := (decodeReply_verify_mem (w.withVerify fun _ _ => none) e resp t1 ht1 m c _ hv).2.2.2
    simp [World.withVerify] at this

/-- C11, at a reply whose verification fails with `ErrVerifyingSignature` and at one
whose verification fails with another error. -/
theorem Get_verify_asymmetry_witness :
    ((Get toleratedWorld sampleClient none).resp =
          (Get (toleratedWorld.withVerify fun _ _ => none) sampleClient none).resp ∧
        (Get toleratedWorld sampleClient none).resp = some sampleResponse ∧
        (Get toleratedWorld sampleClient none).err =
          (Get (toleratedWorld.withVerify fun _ _ => none) sampleClient none).err) ∧
      ((Get mismatchWorld sampleClient none).resp = none ∧
        (Get mismatchWorld sampleClient none).err = some GoError.ErrInvalidCertificate ∧
        ∀ p d, Event.xmlDecode p d ∉ (Get mismatchWorld sampleClient none).trace) :=
  ⟨⟨((Get_verify_asymmetry toleratedWorld sampleClient none (some ⟨2⟩) ⟨7⟩
        GoError.ErrVerifyingSignature (mem_of_index _ 8 _ rfl)).1 rfl).2.2.1, rfl,
      ((Get_verify_asymmetry toleratedWorld sampleClient none (some ⟨2⟩) ⟨7⟩
        GoError.ErrVerifyingSignature (mem_of_index _ 8 _ rfl)).1 rfl).2.2.2⟩,
    (Get_verify_asymmetry mismatchWorld sampleClient none (some ⟨2⟩) ⟨7⟩
      (GoError.New "signer certificate mismatch") (mem_of_index _ 8 _ rfl)).2 (by decide)⟩

end Equifax
